import Mathlib

/-!
Verification of the streaming data-access layer.

Shallow embedding of the Python sources:
  * `python-generators-0x00/1-batch_processing.py` (`stream_users_in_batches`)
  * `python-generators-0x00/2-lazy_paginate.py` (`paginate_users`, `lazy_pagination`)
  * `python-generators-0x00/0-stream_users.py` (`stream_users`)
  * `python-decorators-0x01/2-transactional.py` (`transactional`)
  * `python-decorators-0x01/3-retry_on_failure.py` (`retry_on_failure`)
  * `python-decorators-0x01/4-cache_query.py` (`with_db_connection`, `cache_query`)
  * `python-context-async-perations-0x02/3-concurrent.py` (`asyncfetchusers`,
    `asyncfetcholder_users`, `fetch_concurrently`)

Rows are abstracted to natural numbers; the backing store is a fixed ordered
list of rows.  A `LIMIT lim OFFSET off` query over that fixed ordered data set
returns the window `(rows.drop off).take lim` of it.
-/

/-- A store row, abstracted.  The claims under verification never inspect the
fields of a row, only identity and order, so a row is represented by a `Nat`. -/
abbrev Row := Nat

namespace Generators

/-- Result of `cursor.execute(f"SELECT * FROM user_data LIMIT {lim} OFFSET {off}")`
followed by `fetchall()` against a fixed ordered data set `rows`.
The window model is faithful for `lim ≥ 0` (`LIMIT 0` selects no rows on
every engine).  For strictly negative limits the engines disagree (SQLite
treats a negative `LIMIT` as unbounded, MySQL rejects the statement), so no
theorem in this file evaluates a window at a negative limit. -/
def fetchWindow (rows : List Row) (lim : Int) (off : Nat) : List Row :=
  (rows.drop off).take lim.toNat

/-- Error taxonomy of spec §7 for argument validation. -/
inductive DbError
  | invalidArgument
  deriving Repr, DecidableEq

/-- The `while True` loop of `stream_users_in_batches` (lines 28-42 of
`1-batch_processing.py`): fetch the window at `offset`, stop on the first
empty window (not yielded), otherwise yield it and advance the offset by
`batch_size`.  `fuel` bounds the number of loop iterations; the wrapper below
supplies enough fuel for the loop to run to its `break`.  The advance by
`batch_size.toNat` mirrors the source's `offset += batch_size` only for
`batch_size ≥ 0`, the only regime in which a theorem below reaches the
advance (for `batch_size ≤ 0` the loop breaks before advancing only in the
`batch_size = 0` case, the sole non-positive case treated). -/
def streamBatchesAux (batch_size : Int) (rows : List Row) (offset : Nat)
    (fuel : Nat) : List (List Row) :=
  match fuel with
  | 0 => []
  | fuel + 1 =>
    let batch := fetchWindow rows batch_size offset
    if batch = [] then []
    else batch :: streamBatchesAux batch_size rows (offset + batch_size.toNat) fuel

/-- Embedding of `stream_users_in_batches(batch_size)` (the store is reachable,
so the `if connection:` guard is taken).  The source performs no validation of
`batch_size` whatsoever and a Python generator body does not run at call time,
so the call itself never raises: the result is always `.ok` with the list of
yielded batches. -/
def stream_users_in_batches (batch_size : Int) (rows : List Row) :
    Except DbError (List (List Row)) :=
  .ok (streamBatchesAux batch_size rows 0 (rows.length + 1))

/-- Embedding of `paginate_users(page_size, offset)` from `2-lazy_paginate.py`:
one independent round trip running `SELECT * FROM user_data LIMIT page_size
OFFSET offset`.  As with `fetchWindow`, the `Int.toNat` clamp is faithful
only for `page_size ≥ 0`; every theorem about it assumes `page_size ≥ 1`. -/
def paginate_users (page_size : Int) (offset : Nat) (rows : List Row) : List Row :=
  (rows.drop offset).take page_size.toNat

/-- The `while True` loop of `lazy_pagination` (lines 50-59 of
`2-lazy_paginate.py`): fetch the page at `offset` via `paginate_users`, stop on
the first empty page, otherwise yield it and advance `offset` by `page_size`. -/
def lazyPaginateAux (page_size : Int) (rows : List Row) (offset : Nat)
    (fuel : Nat) : List (List Row) :=
  match fuel with
  | 0 => []
  | fuel + 1 =>
    let page := paginate_users page_size offset rows
    if page = [] then []
    else page :: lazyPaginateAux page_size rows (offset + page_size.toNat) fuel

/-- Embedding of `lazy_pagination(page_size)`: the sequence of pages the
generator yields over the fixed ordered data set `rows`. -/
def lazy_pagination (page_size : Int) (rows : List Row) : List (List Row) :=
  lazyPaginateAux page_size rows 0 (rows.length + 1)

/-- Reference form of offset windowing: split `rows` into consecutive groups
of `b`; `[]` when `b = 0`. -/
def chunk (b : Nat) (rows : List Row) : List (List Row) :=
  if h : b = 0 ∨ rows = [] then []
  else rows.take b :: chunk b (rows.drop b)
termination_by rows.length
decreasing_by
  rcases not_or.mp h with ⟨hb, hr⟩
  have h1 : 0 < b := Nat.pos_of_ne_zero hb
  have h2 : 0 < rows.length := List.length_pos.mpr hr
  simp only [List.length_drop]
  omega

theorem chunk_nil (b : Nat) : chunk b [] = [] := by
  rw [chunk]; simp

theorem chunk_zero (rows : List Row) : chunk 0 rows = [] := by
  rw [chunk]; simp

theorem chunk_cons {b : Nat} {rows : List Row} (hb : b ≠ 0) (hr : rows ≠ []) :
    chunk b rows = rows.take b :: chunk b (rows.drop b) := by
  rw [chunk]; simp [hb, hr]

/-- With enough fuel, the batch loop starting at `offset` produces exactly the
chunking of the suffix `rows.drop offset`. -/
theorem streamBatchesAux_eq_chunk (batch_size : Int) (rows : List Row) :
    ∀ (fuel offset : Nat), (rows.drop offset).length + 1 ≤ fuel →
      streamBatchesAux batch_size rows offset fuel =
        chunk batch_size.toNat (rows.drop offset) := by
  intro fuel
  induction fuel with
  | zero => intro offset h; omega
  | succ fuel ih =>
    intro offset h
    rw [streamBatchesAux]
    simp only [fetchWindow]
    by_cases hempty : (rows.drop offset).take batch_size.toNat = []
    · rw [if_pos hempty]
      rcases List.take_eq_nil_iff.mp hempty with h0 | h0
      · rw [h0, chunk_zero]
      · rw [h0, chunk_nil]
    · rw [if_neg hempty]
      have hb : batch_size.toNat ≠ 0 := by
        intro h0; exact hempty (by simp [h0])
      have hr : rows.drop offset ≠ [] := by
        intro h0; exact hempty (by simp [h0])
      rw [chunk_cons hb hr]
      have hdd : (rows.drop offset).drop batch_size.toNat =
          rows.drop (offset + batch_size.toNat) := List.drop_drop _ _ _
      have hlen : (rows.drop (offset + batch_size.toNat)).length + 1 ≤ fuel := by
        have e1 : (rows.drop offset).length = rows.length - offset :=
          List.length_drop _ _
        have e2 : (rows.drop (offset + batch_size.toNat)).length =
            rows.length - (offset + batch_size.toNat) := List.length_drop _ _
        have hpos : 0 < (rows.drop offset).length := List.length_pos.mpr hr
        have hbpos : 0 < batch_size.toNat := Nat.pos_of_ne_zero hb
        omega
      rw [ih (offset + batch_size.toNat) hlen, hdd]

/-- `stream_users_in_batches` always succeeds and yields the chunking of the
data set. -/
theorem stream_users_in_batches_eq_chunk (batch_size : Int) (rows : List Row) :
    stream_users_in_batches batch_size rows = .ok (chunk batch_size.toNat rows) := by
  unfold stream_users_in_batches
  rw [streamBatchesAux_eq_chunk batch_size rows (rows.length + 1) 0 (by simp)]
  rfl

/-- The paginator loop is the same offset-windowing loop as the batch loop. -/
theorem lazyPaginateAux_eq_streamBatchesAux (p : Int) (rows : List Row) :
    ∀ (fuel offset : Nat),
      lazyPaginateAux p rows offset fuel = streamBatchesAux p rows offset fuel := by
  intro fuel
  induction fuel with
  | zero => intro offset; rfl
  | succ fuel ih =>
    intro offset
    rw [lazyPaginateAux, streamBatchesAux]
    simp only [paginate_users, fetchWindow]
    by_cases hempty : (rows.drop offset).take p.toNat = []
    · rw [if_pos hempty, if_pos hempty]
    · rw [if_neg hempty, if_neg hempty, ih]

/-- Concatenating the chunks of a list gives the list back (for `b ≠ 0`). -/
theorem chunk_flatten {b : Nat} (hb : b ≠ 0) (rows : List Row) :
    (chunk b rows).flatten = rows := by
  generalize hn : rows.length = n
  induction n using Nat.strong_induction_on generalizing rows with
  | _ n ih =>
    by_cases hr : rows = []
    · subst hr; rw [chunk_nil]; rfl
    · rw [chunk_cons hb hr]
      have hlt : (rows.drop b).length < n := by
        have := List.length_drop b rows
        have hpos : 0 < rows.length := List.length_pos.mpr hr
        have hbpos : 0 < b := Nat.pos_of_ne_zero hb
        omega
      rw [List.flatten_cons, ih _ hlt (rows.drop b) rfl, List.take_append_drop]

/-- The number of chunks is `⌈n / b⌉`, computed as `(n + b - 1) / b`. -/
theorem chunk_length {b : Nat} (hb : b ≠ 0) (rows : List Row) :
    (chunk b rows).length = (rows.length + b - 1) / b := by
  generalize hn : rows.length = n
  induction n using Nat.strong_induction_on generalizing rows with
  | _ n ih =>
    by_cases hr : rows = []
    · subst hr
      simp only [List.length_nil] at hn
      subst hn
      rw [chunk_nil]
      simp only [List.length_nil]
      have hbpos : 0 < b := Nat.pos_of_ne_zero hb
      have h0 : (0 + b - 1) / b = 0 := Nat.div_eq_of_lt (by omega)
      omega
    · rw [chunk_cons hb hr]
      have hpos : 0 < rows.length := List.length_pos.mpr hr
      have hbpos : 0 < b := Nat.pos_of_ne_zero hb
      have hdrop : (rows.drop b).length = rows.length - b := List.length_drop b rows
      have hlt : (rows.drop b).length < n := by omega
      rw [List.length_cons, ih _ hlt (rows.drop b) rfl]
      rw [hdrop, hn]
      have hkey : ∀ m : Nat, 1 ≤ m → (m + b - 1) / b = (m - 1) / b + 1 := by
        intro m hm
        have hm1 : m + b - 1 = (m - 1) + b := by omega
        rw [hm1, Nat.add_div_right _ hbpos]
      rw [hkey n (by omega)]
      rcases Nat.lt_or_ge n (b + 1) with hsmall | hbig
      · -- the tail is empty: one chunk total
        have h1 : n - b = 0 := by omega
        rw [h1]
        have h2 : (0 + b - 1) / b = 0 := Nat.div_eq_of_lt (by omega)
        have h3 : (n - 1) / b = 0 := Nat.div_eq_of_lt (by omega)
        omega
      · -- n > b: peel one full chunk off the front
        rw [hkey (n - b) (by omega)]
        have h4 : n - 1 = (n - b - 1) + b := by omega
        rw [h4, Nat.add_div_right _ hbpos]

/-- Every chunk yielded is nonempty: the first empty window terminates the
stream without being yielded. -/
theorem chunk_ne_nil {b : Nat} (rows : List Row) :
    ∀ l ∈ chunk b rows, l ≠ [] := by
  generalize hn : rows.length = n
  induction n using Nat.strong_induction_on generalizing rows with
  | _ n ih =>
    by_cases hb : b = 0
    · subst hb; rw [chunk_zero]; intro l hl; cases hl
    by_cases hr : rows = []
    · subst hr; rw [chunk_nil]; intro l hl; cases hl
    · rw [chunk_cons hb hr]
      intro l hl
      rcases List.mem_cons.mp hl with h | h
      · subst h
        intro habs
        rcases List.take_eq_nil_iff.mp habs with h0 | h0
        · exact hb h0
        · exact hr h0
      · have hlt : (rows.drop b).length < n := by
          have := List.length_drop b rows
          have hpos : 0 < rows.length := List.length_pos.mpr hr
          have hbpos : 0 < b := Nat.pos_of_ne_zero hb
          omega
        exact ih _ hlt (rows.drop b) rfl l h

/-- Every chunk except possibly the last has exactly `b` records. -/
theorem chunk_dropLast_length {b : Nat} (hb : b ≠ 0) (rows : List Row) :
    ∀ l ∈ (chunk b rows).dropLast, l.length = b := by
  generalize hn : rows.length = n
  induction n using Nat.strong_induction_on generalizing rows with
  | _ n ih =>
    by_cases hr : rows = []
    · subst hr; rw [chunk_nil]; intro l hl; cases hl
    · rw [chunk_cons hb hr]
      intro l hl
      have hlt : (rows.drop b).length < n := by
        have := List.length_drop b rows
        have hpos : 0 < rows.length := List.length_pos.mpr hr
        have hbpos : 0 < b := Nat.pos_of_ne_zero hb
        omega
      by_cases htail : chunk b (rows.drop b) = []
      · rw [htail] at hl
        cases hl
      · rcases List.exists_cons_of_ne_nil htail with ⟨y, ys, hys⟩
        rw [hys] at hl
        rw [show (rows.take b :: y :: ys).dropLast
              = rows.take b :: (y :: ys).dropLast from rfl] at hl
        rcases List.mem_cons.mp hl with h | h
        · -- the head chunk is followed by another chunk, so the tail of the
          -- data set is nonempty and the head window is full
          subst h
          have htne : rows.drop b ≠ [] := by
            intro h0
            rw [h0, chunk_nil] at hys
            cases hys
          have : b ≤ rows.length := by
            have h1 := List.length_drop b rows
            have h2 : 0 < (rows.drop b).length := List.length_pos.mpr htne
            omega
          simp [List.length_take, Nat.min_eq_left this]
        · have := ih _ hlt (rows.drop b) rfl
          rw [hys] at this
          exact this l h

/-- C6: for every batch size `b > 0` and fixed ordered data set, the batch
stream succeeds and yields batches whose in-order concatenation is the full
ordered row set; the number of batches is `⌈n / b⌉` (0 when `n = 0`), every
batch except possibly the last has exactly `b` records, and no empty batch is
ever yielded (the first empty window terminates the stream unyielded). -/
theorem batch_stream_chunking (b : Int) (hb : 0 < b) (rows : List Row) :
    ∃ bs, stream_users_in_batches b rows = .ok bs ∧
      bs.flatten = rows ∧
      bs.length = (rows.length + b.toNat - 1) / b.toNat ∧
      (∀ l ∈ bs.dropLast, l.length = b.toNat) ∧
      (∀ l ∈ bs, l ≠ []) ∧
      (rows = [] → bs = []) := by
  have hbn : b.toNat ≠ 0 := by
    have : (0 : Int) < b := hb
    omega
  refine ⟨chunk b.toNat rows, stream_users_in_batches_eq_chunk b rows, ?_, ?_, ?_, ?_, ?_⟩
  · exact chunk_flatten hbn rows
  · exact chunk_length hbn rows
  · exact chunk_dropLast_length hbn rows
  · exact chunk_ne_nil rows
  · intro hr; subst hr; exact chunk_nil _

/-- Witness for C6 at `b = 2` over five rows. -/
theorem batch_stream_chunking_witness :
    (0 : Int) < 2 ∧
      ∃ bs, stream_users_in_batches 2 [10, 11, 12, 13, 14] = .ok bs ∧
        bs.flatten = [10, 11, 12, 13, 14] ∧
        bs.length = ([10, 11, 12, 13, 14].length + (2 : Int).toNat - 1) / (2 : Int).toNat ∧
        (∀ l ∈ bs.dropLast, l.length = (2 : Int).toNat) ∧
        (∀ l ∈ bs, l ≠ []) ∧
        ([10, 11, 12, 13, 14] = ([] : List Row) → bs = []) :=
  ⟨by decide, batch_stream_chunking 2 (by decide) [10, 11, 12, 13, 14]⟩

/-- C5 counterexample: calling `stream_users_in_batches` with the non-positive
batch size `0` does not fail at all — no validation is performed, the call
succeeds and the stream terminates at the first (empty) window. -/
theorem batch_stream_no_eager_validation_cex :
    stream_users_in_batches 0 [7] = .ok [] ∧
      stream_users_in_batches 0 [7] ≠ .error DbError.invalidArgument := by
  constructor
  · rw [stream_users_in_batches_eq_chunk]
    rw [show (0 : Int).toNat = 0 from rfl, chunk_zero]
  · rw [stream_users_in_batches_eq_chunk]
    simp

/-- C5 amended: `stream_users_in_batches` performs no batch-size validation
and the opening call never fails eagerly (a generator body does not run at
call time); in particular with batch size `0` — where `LIMIT 0` selects no
rows on every engine — the call succeeds and the stream yields no batches,
the first window being already empty.  (Behaviour for strictly negative
sizes is engine-dependent in the source and is not claimed.) -/
theorem batch_stream_zero_ok (rows : List Row) :
    stream_users_in_batches 0 rows = .ok [] := by
  rw [stream_users_in_batches_eq_chunk]
  rw [show (0 : Int).toNat = 0 from rfl, chunk_zero]

/-- C8: for every page size `p ≥ 1`, the Lazy Paginator yields exactly the
same sequence of pages as the Batch Stream with batch size `p` (both run the
same offset-windowing loop), and concatenating its pages in order reproduces
the full ordered row set of a single unbounded query. -/
theorem lazy_paginator_refines_batch_stream (p : Int) (hp : 1 ≤ p)
    (rows : List Row) :
    stream_users_in_batches p rows = .ok (lazy_pagination p rows) ∧
      (lazy_pagination p rows).flatten = rows := by
  have heq : lazy_pagination p rows = chunk p.toNat rows := by
    unfold lazy_pagination
    rw [lazyPaginateAux_eq_streamBatchesAux]
    rw [streamBatchesAux_eq_chunk p rows (rows.length + 1) 0 (by simp),
      List.drop_zero]
  have hpn : p.toNat ≠ 0 := by omega
  constructor
  · rw [heq]; exact stream_users_in_batches_eq_chunk p rows
  · rw [heq]; exact chunk_flatten hpn rows

/-- Witness for C8 at `p = 2` over three rows. -/
theorem lazy_paginator_refines_batch_stream_witness :
    (1 : Int) ≤ 2 ∧
      (stream_users_in_batches 2 [5, 6, 7] = .ok (lazy_pagination 2 [5, 6, 7]) ∧
        (lazy_pagination 2 [5, 6, 7]).flatten = [5, 6, 7]) :=
  ⟨by decide, lazy_paginator_refines_batch_stream 2 (by decide) [5, 6, 7]⟩

end Generators

namespace CursorStream

/-- Observable events of one traversal of the `stream_users` generator
(`0-stream_users.py`).  The generator body, once the connection is obtained,
executes the query and then loops: `row = cursor.fetchone()`; on `None` it
breaks out of the loop and runs `cursor.close()` and `connection.close()`;
otherwise it yields the row.  There is no `try`/`finally` around any of it. -/
inductive Event
  | yielded (r : Row)
  | cursorClosed
  | connClosed
  deriving Repr, BEq, DecidableEq

/-- How one traversal ends: normal exhaustion, a per-row fetch failure
propagating out of `fetchone`, or the consumer abandoning the generator
without requesting another element. -/
inductive Outcome
  | exhausted
  | failed (e : Nat)
  | abandoned
  deriving Repr, BEq, DecidableEq

/-- Embedding of one traversal of `stream_users` (lines 9-41 of
`0-stream_users.py`), run against a store whose successive `fetchone()` calls
produce `fetches` (a row or a fetch error; after the list is exhausted,
`fetchone` returns the `None` sentinel) and a consumer that requests at most
`demand` elements before abandoning the generator.  The event list is what the
suspended/resumed generator body actually executes. -/
def stream_users_run (fetches : List (Except Nat Row)) (demand : Nat) :
    List Event × Outcome :=
  match demand with
  | 0 => ([], .abandoned)
  | d + 1 =>
    match fetches with
    | [] => ([.cursorClosed, .connClosed], .exhausted)
    | .error e :: _ => ([], .failed e)
    | .ok r :: rest =>
      let (evs, out) := stream_users_run rest d
      (.yielded r :: evs, out)

/-- Number of times the traversal released (closed) the stream's connection. -/
def connCloses (evs : List Event) : Nat :=
  evs.count .connClosed

/-- C3 counterexample: a traversal whose first `fetchone` fails propagates the
failure without ever closing the connection — the release count on this exit
path is `0`, not `1`. -/
theorem cursor_stream_release_cex :
    stream_users_run [.error 3] 1 = ([], .failed 3) ∧
      connCloses (stream_users_run [.error 3] 1).1 = 0 := by
  constructor <;> rfl

/-- C3 amended: the connection is released exactly once on normal exhaustion
only; on a per-row fetch failure the failure propagates with no release
(there is no `try`/`finally` in the generator), and a consumer that stops
early and never requests another element likewise leaves the connection
unreleased. -/
theorem cursor_stream_release (fetches : List (Except Nat Row)) (demand : Nat) :
    ((stream_users_run fetches demand).2 = .exhausted →
        connCloses (stream_users_run fetches demand).1 = 1) ∧
      (∀ e, (stream_users_run fetches demand).2 = .failed e →
        connCloses (stream_users_run fetches demand).1 = 0) ∧
      ((stream_users_run fetches demand).2 = .abandoned →
        connCloses (stream_users_run fetches demand).1 = 0) := by
  induction demand generalizing fetches with
  | zero =>
    refine ⟨?_, ?_, ?_⟩
    · intro h; simp [stream_users_run] at h
    · intro e h; simp [stream_users_run] at h
    · intro h; simp [stream_users_run, connCloses]
  | succ d ih =>
    match fetches with
    | [] =>
      refine ⟨?_, ?_, ?_⟩
      · intro h; simp only [stream_users_run]; decide
      · intro e h; simp [stream_users_run] at h
      · intro h; simp [stream_users_run] at h
    | .error e :: rest =>
      refine ⟨?_, ?_, ?_⟩
      · intro h; simp [stream_users_run] at h
      · intro e h; simp only [stream_users_run]; decide
      · intro h; simp [stream_users_run] at h
    | .ok r :: rest =>
      have hrest := ih rest
      have hcount : ∀ evs : List Event,
          connCloses (Event.yielded r :: evs) = connCloses evs := by
        intro evs
        simp [connCloses, List.count_cons,
          show (Event.yielded r == Event.connClosed) = false from rfl]
      refine ⟨?_, ?_, ?_⟩
      · intro h
        simp only [stream_users_run] at h ⊢
        rw [hcount]
        exact hrest.1 h
      · intro e h
        simp only [stream_users_run] at h ⊢
        rw [hcount]
        exact hrest.2.1 e h
      · intro h
        simp only [stream_users_run] at h ⊢
        rw [hcount]
        exact hrest.2.2 h

/-- Witness for the C3 amendment: a fully consumed two-row traversal closes
the connection exactly once. -/
theorem cursor_stream_release_witness :
    connCloses (stream_users_run [.ok 4, .ok 9] 3).1 = 1 :=
  (cursor_stream_release [.ok 4, .ok 9] 3).1 rfl

end CursorStream

namespace Transactional

/-- A database write, abstracted. -/
abbrev Write := Nat

/-- The connection as the transaction layer observes it: writes already
committed (visible to other connections) and writes executed in the current
implicit transaction but not yet committed. -/
structure Conn where
  committed : List Write
  pending : List Write
  deriving Repr, DecidableEq

/-- `conn.commit()`: pending writes become visible. -/
def commit (c : Conn) : Conn :=
  { committed := c.committed ++ c.pending, pending := [] }

/-- `conn.rollback()`: pending writes are discarded. -/
def rollback (c : Conn) : Conn :=
  { committed := c.committed, pending := [] }

/-- Embedding of the `transactional` decorator (lines 21-39 of
`2-transactional.py`).  The wrapped unit of work mutates the connection (its
writes land in `pending`) and either returns a result or raises; the wrapper
commits on normal return and returns the result unchanged, and on any raised
failure rolls back and re-raises that same failure (`raise e`). -/
def transactional (f : Conn → Conn × Except Nat Nat) (c : Conn) :
    Conn × Except Nat Nat :=
  let (c', r) := f c
  match r with
  | .ok v => (commit c', .ok v)
  | .error e => (rollback c', .error e)

/-- C7: for every unit of work that only writes through the transaction (its
committed set is untouched until commit), a normal return commits — the
result is returned unchanged and all of the unit's writes become visible —
and a raised failure rolls back — the visible writes are exactly the ones
visible before the call (no partial write remains) and the original failure
is re-raised unchanged. -/
theorem transactional_commit_rollback (f : Conn → Conn × Except Nat Nat)
    (c : Conn) (hf : (f c).1.committed = c.committed) :
    (∀ v, (f c).2 = .ok v →
        transactional f c =
          ({ committed := c.committed ++ (f c).1.pending, pending := [] }, .ok v)) ∧
      (∀ e, (f c).2 = .error e →
        transactional f c = ({ committed := c.committed, pending := [] }, .error e)) := by
  constructor
  · intro v hv
    unfold transactional
    rw [show f c = ((f c).1, (f c).2) from rfl, hv]
    simp only [commit, hf]
  · intro e he
    unfold transactional
    rw [show f c = ((f c).1, (f c).2) from rfl, he]
    simp only [rollback, hf]

/-- Witness for C7: a unit that stages the write `5` and succeeds with `1`
commits it; a unit that stages `5` and then raises `9` leaves the committed
set untouched and re-raises `9`. -/
theorem transactional_commit_rollback_witness :
    (transactional (fun c => ({ c with pending := c.pending ++ [5] }, .ok 1))
        { committed := [2], pending := [] } =
      ({ committed := [2, 5], pending := [] }, .ok 1)) ∧
      (transactional (fun c => ({ c with pending := c.pending ++ [5] }, .error 9))
          { committed := [2], pending := [] } =
        ({ committed := [2], pending := [] }, .error 9)) := by
  constructor
  · exact (transactional_commit_rollback
      (fun c => ({ c with pending := c.pending ++ [5] }, .ok 1))
      { committed := [2], pending := [] } rfl).1 1 rfl
  · exact (transactional_commit_rollback
      (fun c => ({ c with pending := c.pending ++ [5] }, .error 9))
      { committed := [2], pending := [] } rfl).2 9 rfl

end Transactional

namespace Retry

/-- Observable events of one wrapped call: an invocation of the underlying
operation, or a `time.sleep(delay)` between attempts. -/
inductive Event
  | call
  | sleep (d : Nat)
  deriving Repr, BEq, DecidableEq

/-- The `for attempt in range(retries + 1)` loop of `retry_on_failure`
(lines 32-47 of `3-retry_on_failure.py`).  `f attempt` is the outcome of the
`attempt`-th invocation of the underlying operation; on success its value is
returned at once, on failure the loop sleeps for `delay` and moves to the next
attempt while attempts remain (`attempt < retries`), and after the final
attempt it re-raises the last exception with no further sleep. -/
def retryGo (f : Nat → Except Nat Nat) (delay attempt remaining : Nat) :
    Except Nat Nat × List Event :=
  match f attempt with
  | .ok v => (.ok v, [.call])
  | .error e =>
    match remaining with
    | 0 => (.error e, [.call])
    | r + 1 =>
      let (res, evs) := retryGo f delay (attempt + 1) r
      (res, .call :: .sleep delay :: evs)

/-- Embedding of `retry_on_failure(retries, delay)` applied to a unit of work
`f`: the wrapped call makes up to `retries + 1` invocations in total, so the
spec's `RetryPolicy.maxAttempts` equals `retries + 1`. -/
def retry_on_failure (retries delay : Nat) (f : Nat → Except Nat Nat) :
    Except Nat Nat × List Event :=
  retryGo f delay 0 retries

/-- Number of invocations of the underlying operation in a trace. -/
def numCalls (evs : List Event) : Nat :=
  evs.count .call

/-- C2: under a policy of `maxAttempts = 3` (i.e. `retries = 2`, three
invocations in total), a unit of work whose first two invocations fail makes
exactly 3 invocations, with the fixed delay slept between consecutive failed
attempts and never after the final one, and the wrapped call's outcome is
exactly the third invocation's outcome: the success value if the third
attempt succeeds, the last failure if it fails too. -/
theorem retry_three_attempts (d : Nat) (f : Nat → Except Nat Nat) (e0 e1 : Nat)
    (h0 : f 0 = .error e0) (h1 : f 1 = .error e1) :
    retry_on_failure 2 d f =
        (f 2, [.call, .sleep d, .call, .sleep d, .call]) ∧
      numCalls (retry_on_failure 2 d f).2 = 3 := by
  have h2 : retryGo f d 2 0 = (f 2, [.call]) := by
    unfold retryGo
    cases hf : f 2 with
    | ok v => rfl
    | error e => rfl
  have h12 : retryGo f d 1 1 = (f 2, [.call, .sleep d, .call]) := by
    unfold retryGo
    rw [h1]
    simp [h2]
  have h02 : retry_on_failure 2 d f =
      (f 2, [.call, .sleep d, .call, .sleep d, .call]) := by
    unfold retry_on_failure retryGo
    rw [h0]
    simp [h12]
  refine ⟨h02, ?_⟩
  rw [h02]
  rfl

/-- Witness for C2: a unit failing on attempts 0 and 1 and succeeding with
`42` on attempt 2 returns `42` after exactly 3 invocations. -/
theorem retry_three_attempts_witness :
    retry_on_failure 2 7 (fun i => if i < 2 then .error i else .ok 42) =
        (.ok 42, [.call, .sleep 7, .call, .sleep 7, .call]) ∧
      numCalls (retry_on_failure 2 7
        (fun i => if i < 2 then .error i else .ok 42)).2 = 3 :=
  retry_three_attempts 7 (fun i => if i < 2 then .error i else .ok 42) 0 1 rfl rfl

end Retry

namespace Cache

/-- The Python values that flow through the decorator chain of
`4-cache_query.py`: a connection handle, a string (query text), or `None`. -/
inductive PyVal
  | vconn (id : Nat)
  | vstr (s : String)
  | vnone
  deriving Repr, BEq, DecidableEq

/-- Python truthiness for the values above: connections are truthy, a string
is truthy iff nonempty, `None` is falsy. -/
def truthy : PyVal → Bool
  | .vconn _ => true
  | .vstr s => !(s == "")
  | .vnone => false

/-- Python's `a or b`: `a` if truthy, else `b`. -/
def py_or (a b : PyVal) : PyVal :=
  if truthy a then a else b

/-- Observable state threaded through one or more decorated calls: the
module-level `query_cache` dict (an association list, most recent entry
first) and counters for connections opened/closed and for executions of the
innermost (query-running) function body. -/
structure CState where
  cache : List (PyVal × List Row)
  connOpens : Nat
  connCloses : Nat
  innerCalls : Nat
  deriving Repr, DecidableEq

/-- A decorated Python callable: positional arguments, the value of the
`query` keyword argument (`vnone` when absent), and the state. -/
abbrev PyFun := List PyVal → PyVal → CState → (List Row × CState)

/-- `kwargs.get('query') or (args[1] if len(args) > 1 else None)`
(line 32 of `4-cache_query.py`). -/
def extract_query (args : List PyVal) (kwq : PyVal) : PyVal :=
  py_or kwq (match args.get? 1 with
    | some v => v
    | none => .vnone)

/-- Embedding of the `cache_query` decorator (lines 24-49 of
`4-cache_query.py`): extract the key; if it is truthy, return the cached
result on a hit, otherwise invoke the wrapped function and store its result
under the key; if no truthy key was extracted, invoke the wrapped function
directly without touching the cache. -/
def cache_query (func : PyFun) : PyFun := fun args kwq s =>
  let query := extract_query args kwq
  if truthy query then
    match s.cache.lookup query with
    | some result => (result, s)
    | none =>
      let (result, s') := func args kwq s
      (result, { s' with cache := (query, result) :: s'.cache })
  else
    func args kwq s

/-- Embedding of the `with_db_connection` decorator (lines 5-20): open a
connection, pass it as the first positional argument, and close it in a
`finally` on the way out. -/
def with_db_connection (func : PyFun) : PyFun := fun args kwq s =>
  let conn := PyVal.vconn s.connOpens
  let s1 := { s with connOpens := s.connOpens + 1 }
  let (result, s2) := func (conn :: args) kwq s1
  (result, { s2 with connCloses := s2.connCloses + 1 })

/-- The body of `fetch_users_with_cache(conn, query)` (lines 53-56): run the
query against the store `db` and return its rows.  Its `query` parameter
binds to the `query` keyword argument when present, else to the second
positional argument. -/
def fetch_users_body (db : PyVal → List Row) : PyFun := fun args kwq s =>
  let query := match kwq with
    | .vnone =>
      (match args.get? 1 with
        | some v => v
        | none => .vnone)
    | v => v
  (db query, { s with innerCalls := s.innerCalls + 1 })

/-- The decorated `fetch_users_with_cache`: `@with_db_connection` is applied
last, so the connection layer sits OUTSIDE the cache layer. -/
def fetch_users_with_cache (db : PyVal → List Row) : PyFun :=
  with_db_connection (cache_query (fetch_users_body db))

/-- A starting state whose cache already holds the literal query text. -/
def s0 : CState :=
  { cache := [(.vstr "SELECT * FROM users", [1, 2, 3])],
    connOpens := 0, connCloses := 0, innerCalls := 0 }

/-- C1 counterexample: on a cache hit the cached result is returned and the
inner query body is not invoked, but a connection IS opened (and closed) —
`with_db_connection` wraps `cache_query`, not the other way round — refuting
the claim that no connection is opened on a hit. -/
theorem cache_hit_opens_connection_cex :
    fetch_users_with_cache (fun _ => [9]) [] (.vstr "SELECT * FROM users") s0 =
        ([1, 2, 3],
          { cache := [(.vstr "SELECT * FROM users", [1, 2, 3])],
            connOpens := 1, connCloses := 1, innerCalls := 0 }) ∧
      (fetch_users_with_cache (fun _ => [9]) []
          (.vstr "SELECT * FROM users") s0).2.connOpens ≠ 0 := by
  constructor
  · rfl
  · decide

/-- C1 amended: on a hit the cached result is returned and the inner query
body is not invoked, but — because the connection layer wraps the cache
layer — a connection is opened and closed even on a hit; on a miss the inner
body runs once and the result is stored under the same key. -/
theorem cache_query_hit_miss (db : PyVal → List Row) (args : List PyVal)
    (s : CState) (q : String) (hq : q ≠ "") :
    (∀ r, s.cache.lookup (.vstr q) = some r →
        fetch_users_with_cache db args (.vstr q) s =
          (r, { s with connOpens := s.connOpens + 1,
                       connCloses := s.connCloses + 1 })) ∧
      (s.cache.lookup (.vstr q) = none →
        fetch_users_with_cache db args (.vstr q) s =
          (db (.vstr q),
            { cache := (.vstr q, db (.vstr q)) :: s.cache,
              connOpens := s.connOpens + 1,
              connCloses := s.connCloses + 1,
              innerCalls := s.innerCalls + 1 })) := by
  have hbeq : (q == "") = false := beq_eq_false_iff_ne.mpr hq
  have hex : ∀ args' : List PyVal, extract_query args' (.vstr q) = .vstr q := by
    intro args'
    unfold extract_query py_or
    simp [truthy, hbeq]
  have htr : truthy (.vstr q) = true := by simp [truthy, hbeq]
  constructor
  · intro r hr
    unfold fetch_users_with_cache with_db_connection cache_query
    simp only [hex, htr, if_true, hr]
  · intro hr
    unfold fetch_users_with_cache with_db_connection cache_query fetch_users_body
    simp only [hex, htr, if_true, hr]

/-- Witness for the C1 amendment: a hit on the pre-populated state `s0`
returns the cached rows while opening and closing one connection; a miss on
the empty cache executes the body once and stores the result. -/
theorem cache_query_hit_miss_witness :
    (fetch_users_with_cache (fun _ => [9]) [] (.vstr "SELECT * FROM users") s0 =
        ([1, 2, 3], { s0 with connOpens := 1, connCloses := 1 })) ∧
      (fetch_users_with_cache (fun _ => [9]) [] (.vstr "Q")
          { cache := [], connOpens := 0, connCloses := 0, innerCalls := 0 } =
        ([9], { cache := [(.vstr "Q", [9])],
                connOpens := 1, connCloses := 1, innerCalls := 1 })) := by
  constructor
  · exact (cache_query_hit_miss (fun _ => [9]) [] s0 "SELECT * FROM users"
      (by decide)).1 [1, 2, 3] rfl
  · exact (cache_query_hit_miss (fun _ => [9]) []
      { cache := [], connOpens := 0, connCloses := 0, innerCalls := 0 } "Q"
      (by decide)).2 rfl

/-- C10: when no truthy cache key can be extracted (the `query` keyword is
absent or falsy and there is no truthy second positional argument), the
cache wrapper invokes the wrapped function directly; with the query-running
body as the wrapped function, each such call executes the body once and the
cache is neither consulted nor written — two identical calls execute the body
twice and leave the cache exactly as it was. -/
theorem cache_no_key_direct (db : PyVal → List Row) (func : PyFun)
    (args : List PyVal) (kwq : PyVal) (s : CState)
    (h : truthy (extract_query args kwq) = false) :
    cache_query func args kwq s = func args kwq s ∧
      (cache_query (fetch_users_body db) args kwq s).2.cache = s.cache ∧
      (cache_query (fetch_users_body db) args kwq s).2.innerCalls =
        s.innerCalls + 1 ∧
      (cache_query (fetch_users_body db) args kwq
          (cache_query (fetch_users_body db) args kwq s).2).2.cache = s.cache ∧
      (cache_query (fetch_users_body db) args kwq
          (cache_query (fetch_users_body db) args kwq s).2).2.innerCalls =
        s.innerCalls + 2 := by
  have hdirect : ∀ g : PyFun, cache_query g args kwq s = g args kwq s := by
    intro g
    unfold cache_query
    simp only [h]
    rfl
  have hbody : ∀ t : CState, cache_query (fetch_users_body db) args kwq t =
      fetch_users_body db args kwq t := by
    intro t
    unfold cache_query
    simp only [h]
    rfl
  refine ⟨hdirect func, ?_, ?_, ?_, ?_⟩
  · rw [hbody]; rfl
  · rw [hbody]; rfl
  · rw [hbody, hbody]; rfl
  · rw [hbody, hbody]
    show s.innerCalls + 1 + 1 = s.innerCalls + 2
    omega

/-- Witness for C10 with the empty-string query (a falsy keyword argument)
and no second positional argument. -/
theorem cache_no_key_direct_witness :
    truthy (extract_query [PyVal.vconn 0] (.vstr "")) = false ∧
      (cache_query (fetch_users_body (fun _ => [4])) [PyVal.vconn 0] (.vstr "")
          { cache := [(.vstr "X", [5])],
            connOpens := 0, connCloses := 0, innerCalls := 0 }).2.cache =
        [(.vstr "X", [5])] :=
  ⟨by decide,
    (cache_no_key_direct (fun _ => [4]) (fetch_users_body (fun _ => [4]))
      [PyVal.vconn 0] (.vstr "")
      { cache := [(.vstr "X", [5])],
        connOpens := 0, connCloses := 0, innerCalls := 0 }
      (by decide)).2.1⟩

end Cache

namespace Concurrent

/-- Outcome of the single awaited SQL round trip inside one fetch unit of
`3-concurrent.py`: the fetched rows, or the exception its `except` clause
catches. -/
abbrev FetchResult := Except Nat (List Row)

/-- Embedding of `asyncfetchusers` (lines 77-101 of `3-concurrent.py`): run
the query and return the rows; on any exception, catch it and return `[]`. -/
def asyncfetchusers (fetch : FetchResult) : List Row :=
  match fetch with
  | .ok users => users
  | .error _ => []

/-- Embedding of `asyncfetcholder_users` (lines 104-132): identical
catch-all shape. -/
def asyncfetcholder_users (fetch : FetchResult) : List Row :=
  match fetch with
  | .ok older_users => older_users
  | .error _ => []

/-- The aggregate failure the spec's §4.7 orchestrator is supposed to raise. -/
inductive AggregateFetchError
  | wraps (e : Nat)
  deriving Repr, DecidableEq

/-- Embedding of `fetch_concurrently` (lines 200-237): `asyncio.gather` the
two units and return the pair of their results.  Its own `try`/`except`
would return `([], [])` on an exception, but the units themselves absorb all
failures, so the call always returns successfully. -/
def fetch_concurrently (f1 f2 : FetchResult) :
    Except AggregateFetchError (List Row × List Row) :=
  .ok (asyncfetchusers f1, asyncfetcholder_users f2)

/-- C4 counterexample: when the first unit fails, the orchestrator does not
fail with `AggregateFetchError` — the unit's failure is absorbed into the
success value `[]` and the sibling's rows are returned. -/
theorem concurrent_failure_absorbed_cex :
    fetch_concurrently (.error 7) (.ok [1]) = .ok ([], [1]) ∧
      ∀ e : AggregateFetchError,
        fetch_concurrently (.error 7) (.ok [1]) ≠ .error e := by
  constructor
  · rfl
  · intro e h
    exact Except.noConfusion h

/-- C4 amended: a failing unit is silently absorbed into an empty-list result
for that unit; the orchestrator always returns a success pair — the sibling's
completed rows are kept, nothing is discarded and no `AggregateFetchError` is
ever raised. -/
theorem concurrent_failure_absorbed (f1 f2 : FetchResult) (e : Nat)
    (h1 : f1 = .error e) :
    fetch_concurrently f1 f2 = .ok ([], asyncfetcholder_users f2) ∧
      ∀ err : AggregateFetchError, fetch_concurrently f1 f2 ≠ .error err := by
  constructor
  · unfold fetch_concurrently asyncfetchusers
    rw [h1]
  · intro err h
    exact Except.noConfusion h

/-- Witness for the C4 amendment: first unit fails with `7`, sibling returns
its rows. -/
theorem concurrent_failure_absorbed_witness :
    fetch_concurrently (.error 7) (.ok [2, 3]) = .ok ([], [2, 3]) :=
  (concurrent_failure_absorbed (.error 7) (.ok [2, 3]) 7 rfl).1

/-- `asyncio.gather` as used by `fetch_concurrently`: `units` lists each
unit's result in input order; `comps` lists `(input index, result)` pairs in
the order the event loop saw the units complete.  Each completion stores its
result into the output slot of its input index; the gathered value is the
slot list read off in input order. -/
def gatherOutput (units : List (List Row)) (comps : List (Nat × List Row)) :
    List (List Row) :=
  comps.foldl (fun acc p => acc.set p.1 p.2) (units.map fun _ => [])

theorem foldl_set_length (comps : List (Nat × List Row)) :
    ∀ init : List (List Row),
      (comps.foldl (fun acc p => acc.set p.1 p.2) init).length = init.length := by
  induction comps with
  | nil => intro init; rfl
  | cons hd tl ih =>
    intro init
    rw [List.foldl_cons, ih, List.length_set]

theorem foldl_set_get_not_mem (comps : List (Nat × List Row)) :
    ∀ (init : List (List Row)) (j : Nat), j ∉ comps.map Prod.fst →
      (comps.foldl (fun acc p => acc.set p.1 p.2) init)[j]? = init[j]? := by
  induction comps with
  | nil => intro init j _; rfl
  | cons hd tl ih =>
    intro init j hj
    rw [List.map_cons, List.mem_cons] at hj
    push_neg at hj
    rw [List.foldl_cons, ih _ j hj.2, List.getElem?_set_ne (Ne.symm hj.1)]

theorem foldl_set_get_mem (comps : List (Nat × List Row)) :
    ∀ (init : List (List Row)) (j : Nat) (r : List Row),
      (comps.map Prod.fst).Nodup → (j, r) ∈ comps → j < init.length →
      (comps.foldl (fun acc p => acc.set p.1 p.2) init)[j]? = some r := by
  induction comps with
  | nil => intro init j r _ hmem _; cases hmem
  | cons hd tl ih =>
    intro init j r hnd hmem hj
    rw [List.map_cons, List.nodup_cons] at hnd
    rw [List.foldl_cons]
    rcases List.mem_cons.mp hmem with heq | hmem'
    · subst heq
      rw [foldl_set_get_not_mem tl _ j hnd.1]
      exact List.getElem?_set_eq_of_lt r hj
    · exact ih _ j r hnd.2 hmem' (by rw [List.length_set]; exact hj)

/-- C9: regardless of the order in which the units complete (any permutation
`comps` of the indexed units), the gathered output lists one result per input
unit in input order; in particular `fetch_concurrently` returns
`(all_users, older_users)` in that fixed order. -/
theorem fetch_concurrently_input_order (units : List (List Row))
    (comps : List (Nat × List Row)) (hperm : comps.Perm units.enum) :
    gatherOutput units comps = units ∧
      ∀ f1 f2, fetch_concurrently f1 f2 =
        .ok (asyncfetchusers f1, asyncfetcholder_users f2) := by
  refine ⟨?_, fun f1 f2 => rfl⟩
  have hnd : (comps.map Prod.fst).Nodup := by
    have hp : (comps.map Prod.fst).Perm (units.enum.map Prod.fst) :=
      hperm.map Prod.fst
    rw [List.enum_map_fst] at hp
    exact hp.nodup_iff.mpr (List.nodup_range _)
  have hlen : (gatherOutput units comps).length = units.length := by
    unfold gatherOutput
    rw [foldl_set_length]
    exact List.length_map _ _
  apply List.ext_get?_iff.mpr
  intro j
  rw [List.get?_eq_getElem?, List.get?_eq_getElem?]
  by_cases hj : j < units.length
  · have hmem : (j, units[j]) ∈ comps :=
      hperm.mem_iff.mpr
        (List.mk_mem_enum_iff_getElem?.mpr (List.getElem?_eq_getElem hj))
    have hinit : j < ((units.map fun _ => ([] : List Row))).length := by
      rw [List.length_map]; exact hj
    unfold gatherOutput
    rw [foldl_set_get_mem comps _ j units[j] hnd hmem hinit,
      List.getElem?_eq_getElem hj]
  · have h1 : (gatherOutput units comps)[j]? = none := by
      apply List.getElem?_eq_none
      rw [hlen]
      omega
    have h2 : units[j]? = none := by
      apply List.getElem?_eq_none
      omega
    rw [h1, h2]

/-- Witness for C9: two units whose second completes first (`comps` lists
index 1 before index 0) still gather to input order. -/
theorem fetch_concurrently_input_order_witness :
    ([((1 : Nat), [3]), (0, [1, 2])]).Perm ([[1, 2], [3]] : List (List Row)).enum ∧
      gatherOutput [[1, 2], [3]] [(1, [3]), (0, [1, 2])] = [[1, 2], [3]] :=
  ⟨by decide,
    (fetch_concurrently_input_order [[1, 2], [3]] [(1, [3]), (0, [1, 2])]
      (by decide)).1⟩

end Concurrent
